import Mathlib

/-!
Formal model of the Threadbaire server entry persistence and query layer
(`lib/db.ts`), of the status normalizer (`lib/types.ts`) and of the status
display table (`lib/config.ts`), together with theorems settling the
specification's claims about them.

Modelling conventions:
* Strings are handled at the level of Unicode scalar values (`List Char`
  under `String.data`); the byte order used by the SQL engines to compare
  `TEXT` values coincides with scalar-value lexicographic order on valid
  UTF-8, which is what `textLt` implements.
* Case folding is engine-specific: SQLite `LIKE ... COLLATE NOCASE` folds
  only ASCII `A`-`Z` (documented SQLite behaviour), modelled by
  `asciiLower`; Postgres `ILIKE` lower-cases per locale, modelled by
  `postgresLower`, which extends the ASCII fold with the Latin-1 uppercase
  letters as a representative fragment of locale folding. JavaScript
  `toLowerCase` (used by `normalizeStatus` on status strings) is modelled
  at ASCII level, where it agrees with `asciiLower`.
* Timestamps are an abstract clock string carried in the store state
  (`DbState.now`), standing for SQLite `datetime('now')` and Postgres
  `NOW()`; the engines' concrete timestamp representations differ, so any
  cross-backend result equality is stated up to this abstraction.
* JavaScript truthiness on optional strings and numbers (`x || d`) is made
  explicit by `jsStr` / `jsNum` / `jsInt`.
* The auto-increment id counter (`AUTOINCREMENT` / `SERIAL`) is the
  `nextId` field of the state; fallible operations return `Option`.
-/

namespace Threadbaire

/-- `document_type` enum: `'addendum' | 'dev_log'` (types.ts, db schema CHECK). -/
inductive DocumentType where
  | addendum : DocumentType
  | dev_log : DocumentType
deriving DecidableEq, BEq, Repr

/-- The stored row shape (interface `Entry`, types.ts lines 10-26). Nullable
columns are `Option String`; `is_deleted` is the 0/1 integer flag of the
schema. -/
structure Entry where
  id : Int
  project : String
  document_type : DocumentType
  entry_date : String
  entry_number : Int
  title : String
  entry_type : Option String
  status : Option String
  summary : Option String
  details : Option String
  narrative_signal : Option String
  next_steps : Option String
  is_deleted : Int
  created_at : String
  updated_at : String
deriving DecidableEq, Repr

/-- Interface `CreateEntryInput` (types.ts lines 28-39); `none` is an absent
optional field. -/
structure CreateEntryInput where
  project : String
  document_type : DocumentType
  entry_date : String
  title : String
  entry_type : Option String := none
  status : Option String := none
  summary : Option String := none
  details : Option String := none
  narrative_signal : Option String := none
  next_steps : Option String := none
deriving DecidableEq, Repr

/-- Interface `UpdateEntryInput` (types.ts lines 41-50); `none` is an absent
(undefined) field. -/
structure UpdateEntryInput where
  entry_date : Option String := none
  title : Option String := none
  entry_type : Option String := none
  status : Option String := none
  summary : Option String := none
  details : Option String := none
  narrative_signal : Option String := none
  next_steps : Option String := none
deriving DecidableEq, Repr

/-- The filter record taken by `listEntries` (db.ts lines 65-74). -/
structure ListFilters where
  project : Option String := none
  document_type : Option DocumentType := none
  after : Option String := none
  before : Option String := none
  q : Option String := none
  limit : Option Nat := none
  offset : Option Nat := none
  includeDeleted : Option Bool := none
deriving DecidableEq, Repr

/-- Logical state of the entries table: the stored rows (in table order),
the next auto-increment id, and the abstract current-time string. -/
structure DbState where
  rows : List Entry
  nextId : Int
  now : String
deriving DecidableEq, Repr

/-- Result shape of `listEntries`: `{ entries, total }`. -/
structure ListResult where
  entries : List Entry
  total : Nat
deriving DecidableEq, Repr

/-- Schema invariants maintained by both engines: `id` is a primary key
(pairwise distinct) and the auto-increment counter is above every stored
id. -/
def WellFormed (st : DbState) : Prop :=
  (∀ e ∈ st.rows, e.id < st.nextId) ∧ st.rows.Pairwise (fun a b => a.id ≠ b.id)

/-- JavaScript `s || null` / `if (s)` on an optional string: the empty
string is falsy. -/
def jsStr : Option String → Option String
  | none => none
  | some s => if s = "" then none else some s

/-- JavaScript `n || d` on an optional number: absent and `0` both give the
default. -/
def jsNum (o : Option Nat) (d : Nat) : Nat :=
  match o with
  | none => d
  | some n => if n = 0 then d else n

/-- JavaScript `(maxNum || 0)` on the `MAX(entry_number)` result: SQL `NULL`
(empty group) gives `0`; the numeric value `0` is falsy but `0 || 0 = 0`,
so this is exactly `Option.getD 0`. -/
def jsInt (o : Option Int) : Int := o.getD 0

/-- ASCII lower-casing: the fold SQLite's built-in `NOCASE` collation
applies (SQLite documents `LIKE`/`NOCASE` as case-insensitive for ASCII
only), and the ASCII-level model of JavaScript `toLowerCase`. -/
def asciiLower (c : Char) : Char :=
  if 65 ≤ c.toNat ∧ c.toNat ≤ 90 then Char.ofNat (c.toNat + 32) else c

/-- The locale-aware lower-casing Postgres `ILIKE` applies, modelled as the
ASCII fold extended with the Latin-1 uppercase letters `À`-`Þ` (excluding
`×`): a representative fragment of locale folding, enough that the two
engines agree on ASCII and observably disagree beyond it (e.g. on `Ä`). -/
def postgresLower (c : Char) : Char :=
  if 65 ≤ c.toNat ∧ c.toNat ≤ 90 then Char.ofNat (c.toNat + 32)
  else if 192 ≤ c.toNat ∧ c.toNat ≤ 222 ∧ c.toNat ≠ 215 then Char.ofNat (c.toNat + 32)
  else c

/-- The fixed emoji set stripped by `normalizeStatus`
(regex `/[✅🟡🔜🔴🟢]/g`, types.ts line 92). -/
def statusEmoji : List Char := ['✅', '🟡', '🔜', '🔴', '🟢']

/-- Delete every occurrence of the fixed emoji glyphs. -/
def stripStatusEmoji (l : List Char) : List Char :=
  l.filter (fun c => !(statusEmoji.contains c))

/-- JavaScript `String.prototype.trim`: drop whitespace from both ends. -/
def jsTrim (l : List Char) : List Char :=
  ((l.dropWhile Char.isWhitespace).reverse.dropWhile Char.isWhitespace).reverse

/-- Helper for `collapseWs`: the flag records whether the previous
character was part of a whitespace run already replaced. -/
def collapseWsAux : Bool → List Char → List Char
  | _, [] => []
  | inRun, c :: cs =>
    if c.isWhitespace then
      if inRun then collapseWsAux true cs
      else '_' :: collapseWsAux true cs
    else
      c :: collapseWsAux false cs

/-- JavaScript `replace(/\s+/g, '_')`: each maximal whitespace run becomes
one underscore. -/
def collapseWs (l : List Char) : List Char := collapseWsAux false l

/-- The cleaning pipeline of `normalizeStatus` before the alias table:
lower-case, strip emoji, trim, collapse whitespace runs to underscores
(types.ts lines 90-94). -/
def cleanStatus (input : String) : String :=
  String.mk (collapseWs (jsTrim (stripStatusEmoji (input.data.map asciiLower))))

/-- `normalizeStatus` (types.ts lines 89-105): clean, then look the result
up in the legacy-alias record, falling back to the cleaned value. -/
def normalizeStatus (input : String) : String :=
  let cleaned := cleanStatus input
  if cleaned = "done" then "complete"
  else if cleaned = "partial" then "in_progress"
  else if cleaned = "urgent" then "blocked"
  else if cleaned = "inprogress" then "in_progress"
  else cleaned

/-- The legacy-alias table of `normalizeStatus`, as association-list data
(spec section 4.4). -/
def statusAliasTable : List (String × String) :=
  [("done", "complete"), ("partial", "in_progress"),
   ("urgent", "blocked"), ("inprogress", "in_progress")]

/-- `STATUS_DISPLAY` (config.ts lines 15-22): canonical status key to
emoji-prefixed display string. -/
def STATUS_DISPLAY : List (String × String) :=
  [("complete", "✅ Complete"),
   ("in_progress", "🟡 In Progress"),
   ("logged", "🟡 Logged"),
   ("queued", "🔜 Queued"),
   ("blocked", "🔴 Blocked"),
   ("observed", "🟢 Observed")]

/-- Record lookup `STATUS_DISPLAY[status]` as a first-match search. -/
def statusDisplayLookup (s : String) : Option String :=
  (STATUS_DISPLAY.find? (fun kv => decide (kv.fst = s))).map (fun kv => kv.snd)

/-- `getStatusDisplay` (types.ts lines 108-111): null/empty give `""`,
unknown keys pass through. -/
def getStatusDisplay (status : Option String) : String :=
  match status with
  | none => ""
  | some s => if s = "" then "" else (statusDisplayLookup s).getD s

/-! Text comparison and `LIKE` pattern matching. -/

/-- Strict codepoint order on characters (equals byte order of the UTF-8
encodings the SQL engines compare). -/
def charLt (a b : Char) : Bool := decide (a.toNat < b.toNat)

/-- Strict lexicographic order on scalar-value sequences: the order both
engines use for `TEXT` comparisons such as `entry_date >= ?`. -/
def textLt : List Char → List Char → Bool
  | [], [] => false
  | [], _ :: _ => true
  | _ :: _, [] => false
  | a :: as, b :: bs => if a = b then textLt as bs else charLt a b

/-- Non-strict text order, `a <= b` as `not (b < a)`. -/
def textLe (a b : List Char) : Bool := !(textLt b a)

/-- SQL `LIKE` pattern matching with explicit fuel (`%` matches any
sequence, `_` any single character, anything else itself). Every recursive
call shrinks `pattern.length + text.length`, so fuel
`pattern.length + text.length + 1` — what `likeMatch` supplies — always
suffices and the `fuel = 0` branch is unreachable from `likeMatch`. -/
def likeMatchF : Nat → List Char → List Char → Bool
  | 0, _, _ => false
  | _ + 1, [], [] => true
  | _ + 1, [], _ :: _ => false
  | f + 1, '%' :: ps, [] => likeMatchF f ps []
  | f + 1, '%' :: ps, c :: ts => likeMatchF f ps (c :: ts) || likeMatchF f ('%' :: ps) ts
  | _ + 1, '_' :: _, [] => false
  | f + 1, '_' :: ps, _ :: ts => likeMatchF f ps ts
  | _ + 1, _ :: _, [] => false
  | f + 1, p :: ps, c :: ts => (decide (p = c)) && likeMatchF f ps ts

/-- SQL `LIKE`: does `text` match `pattern`? -/
def likeMatch (pattern text : List Char) : Bool :=
  likeMatchF (pattern.length + text.length + 1) pattern text

/-- SQLite `column LIKE pattern COLLATE NOCASE`: `LIKE` after ASCII case
folding of both sides. -/
def sqliteLikeNocase (pattern s : List Char) : Bool :=
  likeMatch (pattern.map asciiLower) (s.map asciiLower)

/-- Postgres `column ILIKE pattern`: `LIKE` after locale-aware case
folding of both sides. -/
def postgresIlike (pattern s : List Char) : Bool :=
  likeMatch (pattern.map postgresLower) (s.map postgresLower)

/-- Tokenizer behind `q.trim().split(/\s+/).filter(t => t.length > 0)`:
maximal nonempty runs of non-whitespace characters. -/
def splitWsAux : List Char → List Char → List (List Char)
  | [], acc => if acc.isEmpty then [] else [acc.reverse]
  | c :: cs, acc =>
    if c.isWhitespace then
      if acc.isEmpty then splitWsAux cs [] else acc.reverse :: splitWsAux cs []
    else
      splitWsAux cs (c :: acc)

/-- The whitespace-separated search terms of a `q` filter string. -/
def searchTerms (q : String) : List (List Char) := splitWsAux q.data []

/-- The pattern `` `%${term}%` `` built for each search term. -/
def termPattern (t : List Char) : List Char := '%' :: t ++ ['%']

/-- A `field LIKE pattern` condition on a nullable column: SQL `NULL`
compares to `NULL`, which the `WHERE` clause treats as false. -/
def sqliteFieldLike (pattern : List Char) : Option String → Bool
  | none => false
  | some s => sqliteLikeNocase pattern s.data

/-- The per-term OR block of the SQLite query builder (db.ts lines
100-109): the four searched columns, `LIKE ... COLLATE NOCASE`. -/
def sqliteTermCond (t : List Char) (e : Entry) : Bool :=
  let pat := termPattern t
  sqliteLikeNocase pat e.title.data || sqliteFieldLike pat e.summary ||
    sqliteFieldLike pat e.details || sqliteFieldLike pat e.next_steps

/-- `field ILIKE pattern` on a nullable column. -/
def postgresFieldIlike (pattern : List Char) : Option String → Bool
  | none => false
  | some s => postgresIlike pattern s.data

/-- The per-term OR block of the Postgres query builder (db.ts lines
276-286): the four searched columns, `ILIKE`. -/
def postgresTermCond (t : List Char) (e : Entry) : Bool :=
  let pat := termPattern t
  postgresIlike pat e.title.data || postgresFieldIlike pat e.summary ||
    postgresFieldIlike pat e.details || postgresFieldIlike pat e.next_steps

/-! The two backend implementations of the store contract. Each definition
is translated from its own function in db.ts. -/

/-- The `is_deleted = 0` condition, pushed unless `includeDeleted` is the
truthy value `true` (db.ts lines 79-81). -/
def condDeleted (f : ListFilters) (e : Entry) : Bool :=
  if f.includeDeleted = some true then true else decide (e.is_deleted = 0)

/-- The `project = ?` condition, pushed when `project` is truthy. -/
def condProject (f : ListFilters) (e : Entry) : Bool :=
  match jsStr f.project with
  | some p => decide (e.project = p)
  | none => true

/-- The `document_type = ?` condition, pushed when present. -/
def condDocType (f : ListFilters) (e : Entry) : Bool :=
  match f.document_type with
  | some d => decide (e.document_type = d)
  | none => true

/-- The `entry_date >= ?` condition, pushed when `after` is truthy. -/
def condAfter (f : ListFilters) (e : Entry) : Bool :=
  match jsStr f.after with
  | some a => textLe a.data e.entry_date.data
  | none => true

/-- The `entry_date <= ?` condition, pushed when `before` is truthy. -/
def condBefore (f : ListFilters) (e : Entry) : Bool :=
  match jsStr f.before with
  | some b => textLe e.entry_date.data b.data
  | none => true

/-- The conjunction of per-term OR blocks (SQLite spelling), pushed when
`q` is truthy. -/
def sqliteCondQ (f : ListFilters) (e : Entry) : Bool :=
  match jsStr f.q with
  | some q => (searchTerms q).all (fun t => sqliteTermCond t e)
  | none => true

/-- The conjunction of per-term OR blocks (Postgres spelling), pushed when
`q` is truthy. -/
def postgresCondQ (f : ListFilters) (e : Entry) : Bool :=
  match jsStr f.q with
  | some q => (searchTerms q).all (fun t => postgresTermCond t e)
  | none => true

/-- The `WHERE` predicate assembled by `sqliteListEntries` (db.ts lines
76-112): conditions are pushed only for present (truthy) filter fields and
joined with `AND`. -/
def sqliteWhere (f : ListFilters) (e : Entry) : Bool :=
  condDeleted f e && condProject f e && condDocType f e && condAfter f e &&
    condBefore f e && sqliteCondQ f e

/-- The `WHERE` predicate assembled by `postgresListEntries` (db.ts lines
251-287): same conditions, `ILIKE` for the term blocks. -/
def postgresWhere (f : ListFilters) (e : Entry) : Bool :=
  condDeleted f e && condProject f e && condDocType f e && condAfter f e &&
    condBefore f e && postgresCondQ f e

/-- `ORDER BY entry_date DESC, entry_number DESC` as a Boolean relation:
`a` may come before `b`. -/
def browseLe (a b : Entry) : Bool :=
  textLt b.entry_date.data a.entry_date.data ||
    (decide (a.entry_date = b.entry_date) && decide (b.entry_number ≤ a.entry_number))

/-- `browseLe` as a `Prop` relation for the sorting library. -/
def browseR (a b : Entry) : Prop := browseLe a b = true

instance : DecidableRel browseR := fun a b =>
  inferInstanceAs (Decidable (browseLe a b = true))

/-- The engine's `ORDER BY` step: a sort consistent with `browseLe`. SQL
leaves the relative order of rows fully tied on
`(entry_date, entry_number)` unspecified per engine; the model resolves
such ties deterministically and identically for both backends, a modelling
decision surfaced explicitly where cross-backend order equality is
stated. -/
def entriesSort (l : List Entry) : List Entry := List.insertionSort browseR l

/-- `SELECT MAX(entry_number)`: SQL `MAX` of a list of values, `NULL`
(`none`) on the empty group. -/
def sqlMaxNum : List Int → Option Int
  | [] => none
  | n :: ns =>
    match sqlMaxNum ns with
    | none => some n
    | some m => some (max n m)

/-- The rows of one `(project, document_type, entry_date)` group — the
`WHERE` clause of the max-number query on create (db.ts lines 138-141). -/
def groupRows (p : String) (d : DocumentType) (date : String) (rows : List Entry) : List Entry :=
  rows.filter (fun e =>
    decide (e.project = p) && decide (e.document_type = d) && decide (e.entry_date = date))

/-- Group rows excluding one id — the max-number query on a date-changing
update (db.ts lines 170-173: `... AND id != ?`). -/
def groupRowsExcl (p : String) (d : DocumentType) (date : String) (id : Int) (rows : List Entry) : List Entry :=
  rows.filter (fun e =>
    decide (e.project = p) && decide (e.document_type = d) && decide (e.entry_date = date) &&
      !(decide (e.id = id)))

/-- `sqliteListEntries` (db.ts lines 65-127): filter, count before
pagination, sort, `LIMIT min(limit || 50, 200)` and `OFFSET offset || 0`. -/
def sqliteListEntries (f : ListFilters) (st : DbState) : ListResult :=
  let matching := st.rows.filter (fun e => sqliteWhere f e)
  let lim := min (jsNum f.limit 50) 200
  let off := jsNum f.offset 0
  { entries := ((entriesSort matching).drop off).take lim, total := matching.length }

/-- `postgresListEntries` (db.ts lines 241-305): identical pipeline built
from the Postgres predicate. -/
def postgresListEntries (f : ListFilters) (st : DbState) : ListResult :=
  let matching := st.rows.filter (fun e => postgresWhere f e)
  let lim := min (jsNum f.limit 50) 200
  let off := jsNum f.offset 0
  { entries := ((entriesSort matching).drop off).take lim, total := matching.length }

/-- `sqliteGetEntry` (db.ts lines 129-133): first row with the id, else
`null`. -/
def sqliteGetEntry (id : Int) (st : DbState) : Option Entry :=
  st.rows.find? (fun e => decide (e.id = id))

/-- `postgresGetEntry` (db.ts lines 307-310): `rows[0] || null` of the
id-filtered query. -/
def postgresGetEntry (id : Int) (st : DbState) : Option Entry :=
  (st.rows.filter (fun e => decide (e.id = id))).head?

/-- The row inserted by either backend's create: the auto-increment id, the
max-plus-one entry number, provided fields, `|| null` coercions on optional
fields, default flag and timestamps. -/
def insertedRow (input : CreateEntryInput) (st : DbState) : Entry :=
  { id := st.nextId
    project := input.project
    document_type := input.document_type
    entry_date := input.entry_date
    entry_number := jsInt (sqlMaxNum ((groupRows input.project input.document_type
      input.entry_date st.rows).map (fun e => e.entry_number))) + 1
    title := input.title
    entry_type := jsStr input.entry_type
    status := jsStr input.status
    summary := jsStr input.summary
    details := jsStr input.details
    narrative_signal := jsStr input.narrative_signal
    next_steps := jsStr input.next_steps
    is_deleted := 0
    created_at := st.now
    updated_at := st.now }

/-- `sqliteCreateEntry` (db.ts lines 135-159): insert, then re-fetch the
row by `lastInsertRowid` (the re-fetch always finds the appended row, so
the `getD` default is never used). -/
def sqliteCreateEntry (input : CreateEntryInput) (st : DbState) : Entry × DbState :=
  let newRow := insertedRow input st
  let st' : DbState := { rows := st.rows ++ [newRow], nextId := st.nextId + 1, now := st.now }
  ((sqliteGetEntry st.nextId st').getD newRow, st')

/-- `postgresCreateEntry` (db.ts lines 312-333): insert with
`RETURNING *`, handing back the inserted row directly. -/
def postgresCreateEntry (input : CreateEntryInput) (st : DbState) : Entry × DbState :=
  let newRow := insertedRow input st
  let st' : DbState := { rows := st.rows ++ [newRow], nextId := st.nextId + 1, now := st.now }
  (newRow, st')

/-- The dynamic `SET` list of `sqliteUpdateEntry` (db.ts lines 166-188)
applied to a row: always `updated_at`, then date/number when the date
changed, then each provided field. -/
def sqliteApplyUpdates (input : UpdateEntryInput) (dateChange : Option (String × Int))
    (now : String) (r : Entry) : Entry :=
  let r1 := { r with updated_at := now }
  let r2 := match dateChange with
    | some dn => { r1 with entry_date := dn.fst, entry_number := dn.snd }
    | none => r1
  let r3 := match input.title with | some t => { r2 with title := t } | none => r2
  let r4 := match input.entry_type with | some v => { r3 with entry_type := some v } | none => r3
  let r5 := match input.status with | some v => { r4 with status := some v } | none => r4
  let r6 := match input.summary with | some v => { r5 with summary := some v } | none => r5
  let r7 := match input.details with | some v => { r6 with details := some v } | none => r6
  let r8 := match input.narrative_signal with
    | some v => { r7 with narrative_signal := some v } | none => r7
  match input.next_steps with | some v => { r8 with next_steps := some v } | none => r8

/-- `sqliteUpdateEntry` (db.ts lines 161-195): absent row reports `null`;
a changed date triggers the excluded-max renumbering; the `UPDATE` applies
the `SET` list to every row matching the id; the result is re-fetched. -/
def sqliteUpdateEntry (id : Int) (input : UpdateEntryInput) (st : DbState) :
    Option Entry × DbState :=
  match sqliteGetEntry id st with
  | none => (none, st)
  | some existing =>
    let dateChange : Option (String × Int) :=
      match input.entry_date with
      | some d =>
        if d = existing.entry_date then none
        else
          some (d, jsInt (sqlMaxNum ((groupRowsExcl existing.project existing.document_type
            d id st.rows).map (fun e => e.entry_number))) + 1)
      | none => none
    let st' : DbState :=
      { st with rows := st.rows.map (fun r =>
          if decide (r.id = id) then sqliteApplyUpdates input dateChange st.now r else r) }
    (sqliteGetEntry id st', st')

/-- The full-row `SET` of `postgresUpdateEntry` (db.ts lines 354-368):
every updatable column is written, falling back to the pre-read `existing`
row for absent fields. -/
def postgresNewRow (input : UpdateEntryInput) (existing : Entry) (dn : String × Int)
    (now : String) (r : Entry) : Entry :=
  { r with
    entry_date := dn.fst
    entry_number := dn.snd
    title := match input.title with | some t => t | none => existing.title
    entry_type := match input.entry_type with | some v => some v | none => existing.entry_type
    status := match input.status with | some v => some v | none => existing.status
    summary := match input.summary with | some v => some v | none => existing.summary
    details := match input.details with | some v => some v | none => existing.details
    narrative_signal := match input.narrative_signal with
      | some v => some v | none => existing.narrative_signal
    next_steps := match input.next_steps with | some v => some v | none => existing.next_steps
    updated_at := now }

/-- `postgresUpdateEntry` (db.ts lines 335-370): absent row reports `null`;
date/number recomputed as in SQLite; every column written; `RETURNING *`
hands back the first updated row. -/
def postgresUpdateEntry (id : Int) (input : UpdateEntryInput) (st : DbState) :
    Option Entry × DbState :=
  match postgresGetEntry id st with
  | none => (none, st)
  | some existing =>
    let dn : String × Int :=
      match input.entry_date with
      | some d =>
        if d = existing.entry_date then (existing.entry_date, existing.entry_number)
        else
          (d, jsInt (sqlMaxNum ((groupRowsExcl existing.project existing.document_type
            d id st.rows).map (fun e => e.entry_number))) + 1)
      | none => (existing.entry_date, existing.entry_number)
    let st' : DbState :=
      { st with rows := st.rows.map (fun r =>
          if decide (r.id = id) then postgresNewRow input existing dn st.now r else r) }
    ((st'.rows.filter (fun e => decide (e.id = id))).head?, st')

/-- `sqliteDeleteEntry` (db.ts lines 197-206): hard delete removes the
rows, soft delete sets the flag and timestamp; returns `changes > 0`. -/
def sqliteDeleteEntry (id : Int) (hard : Bool) (st : DbState) : Bool × DbState :=
  if hard then
    (decide (0 < (st.rows.filter (fun e => decide (e.id = id))).length),
     { st with rows := st.rows.filter (fun e => !(decide (e.id = id))) })
  else
    (decide (0 < (st.rows.filter (fun e => decide (e.id = id))).length),
     { st with rows := st.rows.map (fun r =>
         if decide (r.id = id) then { r with is_deleted := 1, updated_at := st.now } else r) })

/-- `postgresDeleteEntry` (db.ts lines 372-380): same UPDATE/DELETE pair,
returns `rowCount > 0`. -/
def postgresDeleteEntry (id : Int) (hard : Bool) (st : DbState) : Bool × DbState :=
  if hard then
    (decide (0 < (st.rows.filter (fun e => decide (e.id = id))).length),
     { st with rows := st.rows.filter (fun e => !(decide (e.id = id))) })
  else
    (decide (0 < (st.rows.filter (fun e => decide (e.id = id))).length),
     { st with rows := st.rows.map (fun r =>
         if decide (r.id = id) then { r with is_deleted := 1, updated_at := st.now } else r) })

/-- `initSqliteSchema` via `getSqliteDb` (db.ts lines 37-63):
`CREATE TABLE IF NOT EXISTS` plus `CREATE INDEX IF NOT EXISTS`, the
identity on the logical store state. -/
def sqliteInitSchema (st : DbState) : DbState := st

/-- `postgresInitSchema` (db.ts lines 214-239): same idempotent DDL,
identity on the logical store state. -/
def postgresInitSchema (st : DbState) : DbState := st

/-! The unified API (db.ts lines 386-442) dispatches on the process-wide
`usePostgres` flag. -/

/-- `initSchema` (db.ts lines 386-393). -/
def initSchema (usePostgres : Bool) (st : DbState) : DbState :=
  if usePostgres then postgresInitSchema st else sqliteInitSchema st

/-- `listEntries` (db.ts lines 395-410). -/
def listEntries (usePostgres : Bool) (f : ListFilters) (st : DbState) : ListResult :=
  if usePostgres then postgresListEntries f st else sqliteListEntries f st

/-- `getEntry` (db.ts lines 412-418). -/
def getEntry (usePostgres : Bool) (id : Int) (st : DbState) : Option Entry :=
  if usePostgres then postgresGetEntry id st else sqliteGetEntry id st

/-- `createEntry` (db.ts lines 420-426). -/
def createEntry (usePostgres : Bool) (input : CreateEntryInput) (st : DbState) :
    Entry × DbState :=
  if usePostgres then postgresCreateEntry input st else sqliteCreateEntry input st

/-- `updateEntry` (db.ts lines 428-434). -/
def updateEntry (usePostgres : Bool) (id : Int) (input : UpdateEntryInput) (st : DbState) :
    Option Entry × DbState :=
  if usePostgres then postgresUpdateEntry id input st else sqliteUpdateEntry id input st

/-- `deleteEntry` (db.ts lines 436-442). -/
def deleteEntry (usePostgres : Bool) (id : Int) (hard : Bool) (st : DbState) :
    Bool × DbState :=
  if usePostgres then postgresDeleteEntry id hard st else sqliteDeleteEntry id hard st

/-- An ASCII character: the range on which the two engines' case folds
provably agree. -/
def asciiChar (c : Char) : Bool := decide (c.toNat < 128)

/-- A character sequence entirely within ASCII. -/
def asciiText (l : List Char) : Bool := l.all asciiChar

/-- A nullable text column entirely within ASCII. -/
def asciiField : Option String → Bool
  | none => true
  | some s => asciiText s.data

/-- An entry whose four searched columns are entirely ASCII. -/
def asciiSearchable (e : Entry) : Bool :=
  asciiText e.title.data && asciiField e.summary && asciiField e.details &&
    asciiField e.next_steps

/-- A filter whose effective `q` string (when truthy) is entirely ASCII. -/
def asciiQuery (f : ListFilters) : Bool :=
  match jsStr f.q with
  | some q => asciiText q.data
  | none => true

/-- Case-insensitive substring containment, the reading of the search
condition in the specification (spec sections 4.2 and 8). -/
def containsCI (term s : List Char) : Bool :=
  decide ((term.map asciiLower) <:+: (s.map asciiLower))

/-- Case-insensitive substring containment on a nullable field. -/
def fieldContainsCI (term : List Char) : Option String → Bool
  | none => false
  | some s => containsCI term s.data

/-- The spec's reading of one search term against an entry: some of the
four searched fields contains the term as a case-insensitive substring. -/
def termContainsCI (term : List Char) (e : Entry) : Bool :=
  containsCI term e.title.data || fieldContainsCI term e.summary ||
    fieldContainsCI term e.details || fieldContainsCI term e.next_steps

/-- How a created row's optional column relates to the input field: a
provided non-empty value is stored as given; an omitted or empty-string
value is stored as `NULL`. -/
def storedOptField (provided stored : Option String) : Prop :=
  (∀ s, provided = some s → s ≠ "" → stored = some s) ∧
  ((provided = none ∨ provided = some "") → stored = none)

/-- A sequence of creates against the SQLite backend, collecting the
entry numbers of the returned rows in order. -/
def createSeq : List CreateEntryInput → DbState → List Int × DbState
  | [], st => ([], st)
  | i :: is, st =>
    let r := sqliteCreateEntry i st
    let rest := createSeq is r.snd
    (r.fst.entry_number :: rest.fst, rest.snd)

/-! Concrete fixtures used by witnesses and counterexamples. -/

/-- A sample stored entry. -/
def exEntry : Entry :=
  { id := 1, project := "p", document_type := DocumentType.dev_log,
    entry_date := "2026-01-01", entry_number := 1, title := "abc",
    entry_type := none, status := none, summary := none, details := none,
    narrative_signal := none, next_steps := none, is_deleted := 0,
    created_at := "t0", updated_at := "t0" }

/-- A one-row store state holding `exEntry`. -/
def exState : DbState := { rows := [exEntry], nextId := 2, now := "t1" }

/-- A 21-row store state (distinct ids, same group). -/
def exState21 : DbState :=
  { rows := (List.range 21).map (fun i => { exEntry with id := Int.ofNat i }),
    nextId := 30, now := "t1" }

/-- An entry whose title contains a Latin-1 uppercase letter, where the
two engines' case folds disagree. -/
def exEntryUni : Entry := { exEntry with title := "Äpfel" }

/-- A one-row store state holding `exEntryUni`. -/
def exStateUni : DbState := { rows := [exEntryUni], nextId := 2, now := "t1" }

/-- A sample create input into the group of `exEntry`. -/
def exInput : CreateEntryInput :=
  { project := "p", document_type := DocumentType.dev_log,
    entry_date := "2026-01-01", title := "second" }

/-- A create input whose `summary` is provided as the empty string. -/
def exInputEmptySummary : CreateEntryInput := { exInput with summary := some "" }

end Threadbaire

namespace Threadbaire

/-! Helper lemmas (shared; none of these settles a claim by itself). -/

/-- The first element of a filtered list is the first element satisfying
the predicate. -/
theorem head?_filter_eq_find? (p : α → Bool) (l : List α) :
    (l.filter p).head? = l.find? p := by
  induction l with
  | nil => rfl
  | cons a l ih =>
    by_cases h : p a <;> simp [List.filter_cons, List.find?_cons, h, ih]

/-- `MAX` is `NULL` exactly on the empty group. -/
theorem sqlMaxNum_eq_none_iff {l : List Int} : sqlMaxNum l = none ↔ l = [] := by
  cases l with
  | nil => simp [sqlMaxNum]
  | cons n ns =>
    cases h : sqlMaxNum ns <;> simp [sqlMaxNum, h]

/-- Every group member is bounded by `MAX`. -/
theorem le_sqlMaxNum {l : List Int} {x : Int} (hx : x ∈ l) :
    ∃ m, sqlMaxNum l = some m ∧ x ≤ m := by
  induction l with
  | nil => cases hx
  | cons n ns ih =>
    rcases List.mem_cons.mp hx with rfl | hx'
    · cases h : sqlMaxNum ns with
      | none => exact ⟨x, by simp [sqlMaxNum, h], le_refl x⟩
      | some m => exact ⟨max x m, by simp [sqlMaxNum, h], le_max_left _ _⟩
    · obtain ⟨m, hm, hxm⟩ := ih hx'
      cases h : sqlMaxNum ns with
      | none => rw [h] at hm; cases hm
      | some m' =>
        rw [h] at hm
        cases hm
        exact ⟨max n m, by simp [sqlMaxNum, h], le_trans hxm (le_max_right _ _)⟩

/-- `MAX` of a nonempty group is attained by a member. -/
theorem sqlMaxNum_mem {l : List Int} {m : Int} (h : sqlMaxNum l = some m) : m ∈ l := by
  induction l generalizing m with
  | nil => simp [sqlMaxNum] at h
  | cons n ns ih =>
    cases h' : sqlMaxNum ns with
    | none =>
      rw [sqlMaxNum, h'] at h
      cases h
      exact List.mem_cons_self _ _
    | some m' =>
      rw [sqlMaxNum, h'] at h
      cases h
      rcases max_choice n m' with hc | hc <;> rw [hc]
      · exact List.mem_cons_self _ _
      · exact List.mem_cons_of_mem _ (ih h')

/-- Characters with equal scalar values are equal. -/
theorem charNat_inj {a b : Char} (h : a.toNat = b.toNat) : a = b := by
  have hv : a.val.toBitVec = b.val.toBitVec := BitVec.toNat_injective h
  exact Char.eq_of_val_eq (UInt32.eq_of_toBitVec_eq hv)

/-- `textLt` is transitive. -/
theorem textLt_trans :
    ∀ {x y z : List Char}, textLt x y = true → textLt y z = true → textLt x z = true := by
  intro x
  induction x with
  | nil =>
    intro y z hxy hyz
    cases y with
    | nil => simp [textLt] at hxy
    | cons b bs =>
      cases z with
      | nil => simp [textLt] at hyz
      | cons c cs => simp [textLt]
  | cons a as ih =>
    intro y z hxy hyz
    cases y with
    | nil => simp [textLt] at hxy
    | cons b bs =>
      cases z with
      | nil => simp [textLt] at hyz
      | cons c cs =>
        rw [textLt] at hxy hyz ⊢
        by_cases hab : a = b
        · subst hab
          rw [if_pos rfl] at hxy
          by_cases hac : a = c
          · subst hac
            rw [if_pos rfl] at hyz ⊢
            exact ih hxy hyz
          · rw [if_neg hac] at hyz ⊢
            exact hyz
        · rw [if_neg hab] at hxy
          by_cases hbc : b = c
          · subst hbc
            rw [if_neg hab]
            exact hxy
          · rw [if_neg hbc] at hyz
            simp only [charLt, decide_eq_true_iff] at hxy hyz
            have hac : a ≠ c := by
              intro hc; subst hc; omega
            rw [if_neg hac]
            simp only [charLt, decide_eq_true_iff]
            omega

/-- Distinct character sequences compare strictly one way or the other. -/
theorem textLt_total_of_ne :
    ∀ {x y : List Char}, x ≠ y → textLt x y = true ∨ textLt y x = true := by
  intro x
  induction x with
  | nil =>
    intro y hne
    cases y with
    | nil => exact absurd rfl hne
    | cons b bs => left; simp [textLt]
  | cons a as ih =>
    intro y hne
    cases y with
    | nil => right; simp [textLt]
    | cons b bs =>
      by_cases hab : a = b
      · subst hab
        have hne' : as ≠ bs := fun hc => hne (by rw [hc])
        rcases ih hne' with h | h
        · left; rw [textLt, if_pos rfl]; exact h
        · right; rw [textLt, if_pos rfl]; exact h
      · have hnat : a.toNat ≠ b.toNat := fun hc => hab (charNat_inj hc)
        rcases Nat.lt_or_ge a.toNat b.toNat with hlt | hge
        · left
          rw [textLt, if_neg hab]
          simp [charLt, hlt]
        · right
          rw [textLt, if_neg (fun hc => hab hc.symm)]
          have : b.toNat < a.toNat := lt_of_le_of_ne hge (fun hc => hnat hc.symm)
          simp [charLt, this]

instance : IsTrans Entry browseR where
  trans a b c hab hbc := by
    simp only [browseR, browseLe, Bool.or_eq_true, Bool.and_eq_true,
      decide_eq_true_iff] at hab hbc ⊢
    rcases hab with h1 | ⟨hd1, hn1⟩
    · rcases hbc with h2 | ⟨hd2, hn2⟩
      · exact Or.inl (textLt_trans h2 h1)
      · rw [hd2] at h1
        exact Or.inl h1
    · rcases hbc with h2 | ⟨hd2, hn2⟩
      · rw [hd1]
        exact Or.inl h2
      · exact Or.inr ⟨hd1.trans hd2, le_trans hn2 hn1⟩

instance : IsTotal Entry browseR where
  total a b := by
    simp only [browseR, browseLe, Bool.or_eq_true, Bool.and_eq_true,
      decide_eq_true_iff]
    by_cases hd : a.entry_date = b.entry_date
    · rcases le_total a.entry_number b.entry_number with h | h
      · exact Or.inr (Or.inr ⟨hd.symm, h⟩)
      · exact Or.inl (Or.inr ⟨hd, h⟩)
    · have hdata : b.entry_date.data ≠ a.entry_date.data := by
        intro hc
        exact hd (String.ext hc).symm
      rcases textLt_total_of_ne hdata with h | h
      · exact Or.inl (Or.inl h)
      · exact Or.inr (Or.inl h)

/-- The rows returned by either list implementation are drawn from the
rows matching the `WHERE` predicate. -/
theorem mem_listEntries_subset {f : ListFilters} {st : DbState} {e : Entry}
    (w : ListFilters → Entry → Bool)
    (h : e ∈ (((entriesSort (st.rows.filter (fun x => w f x))).drop
      (jsNum f.offset 0)).take (min (jsNum f.limit 50) 200))) :
    e ∈ st.rows ∧ w f e = true := by
  have h1 : e ∈ entriesSort (st.rows.filter (fun x => w f x)) :=
    ((List.take_sublist _ _).trans (List.drop_sublist _ _)).mem h
  have h2 : e ∈ st.rows.filter (fun x => w f x) :=
    ((List.perm_insertionSort browseR (st.rows.filter (fun x => w f x))).mem_iff
      (a := e)).mp h1
  exact ⟨(List.mem_filter.mp h2).1, (List.mem_filter.mp h2).2⟩

/-- C8: `normalizeStatus` lower-cases, strips the fixed emoji set, trims,
collapses whitespace runs to underscores, then applies exactly the
four-entry alias table, passing unmapped values through; in particular
`"✅ Done" ↦ "complete"`, `"URGENT" ↦ "blocked"`, and `"already_clean"`
passes through unchanged. -/
theorem C8_normalizeStatus_spec :
    (∀ s : String, normalizeStatus s =
      ((statusAliasTable.lookup (cleanStatus s)).getD (cleanStatus s))) ∧
    normalizeStatus ("✅ Done") = "complete" ∧
    normalizeStatus ("URGENT") = "blocked" ∧
    normalizeStatus ("already_clean") = "already_clean" := by
  refine ⟨?_, by decide, by decide, by decide⟩
  intro s
  by_cases h1 : cleanStatus s = "done"
  · simp [normalizeStatus, statusAliasTable, List.lookup, h1]
  · by_cases h2 : cleanStatus s = "partial"
    · simp [normalizeStatus, statusAliasTable, List.lookup, h1, h2]
    · by_cases h3 : cleanStatus s = "urgent"
      · simp [normalizeStatus, statusAliasTable, List.lookup, h1, h2, h3]
      · by_cases h4 : cleanStatus s = "inprogress"
        · simp [normalizeStatus, statusAliasTable, List.lookup, h1, h2, h3, h4]
        · have e1 : (cleanStatus s == "done") = false := by simp [h1]
          have e2 : (cleanStatus s == "partial") = false := by simp [h2]
          have e3 : (cleanStatus s == "urgent") = false := by simp [h3]
          have e4 : (cleanStatus s == "inprogress") = false := by simp [h4]
          simp [normalizeStatus, statusAliasTable, List.lookup, h1, h2, h3, h4,
            e1, e2, e3, e4]

/-- C10: normalizing the display string of each of the six canonical
status keys recovers the key, and `getStatusDisplay` of null or of the
empty string is the empty string. -/
theorem C10_status_display_roundtrip :
    normalizeStatus (getStatusDisplay (some ("complete"))) = "complete" ∧
    normalizeStatus (getStatusDisplay (some ("in_progress"))) = "in_progress" ∧
    normalizeStatus (getStatusDisplay (some ("logged"))) = "logged" ∧
    normalizeStatus (getStatusDisplay (some ("queued"))) = "queued" ∧
    normalizeStatus (getStatusDisplay (some ("blocked"))) = "blocked" ∧
    normalizeStatus (getStatusDisplay (some ("observed"))) = "observed" ∧
    getStatusDisplay none = "" ∧
    getStatusDisplay (some ("")) = "" := by decide

/-- C9: an update to an id with no stored row reports `none` and leaves the
store unchanged, a delete of such an id reports `false` and leaves the
store unchanged (in both backends), and a delete reports `true` exactly
when a row with the id exists. -/
theorem C9_not_found_reporting (st : DbState) (id : Int) (input : UpdateEntryInput)
    (hard : Bool) :
    ((∀ e ∈ st.rows, e.id ≠ id) →
      sqliteUpdateEntry id input st = (none, st) ∧
      postgresUpdateEntry id input st = (none, st) ∧
      sqliteDeleteEntry id hard st = (false, st) ∧
      postgresDeleteEntry id hard st = (false, st)) ∧
    ((sqliteDeleteEntry id hard st).fst = true ↔ ∃ e ∈ st.rows, e.id = id) := by
  constructor
  · intro h
    have hfind : sqliteGetEntry id st = none := by
      simp only [sqliteGetEntry, List.find?_eq_none, decide_eq_true_iff]
      exact h
    have hfilter : st.rows.filter (fun e => decide (e.id = id)) = [] := by
      simp only [List.filter_eq_nil_iff, decide_eq_true_iff]
      exact h
    have hpfind : postgresGetEntry id st = none := by
      simp [postgresGetEntry, hfilter]
    have hkeep : st.rows.filter (fun e => !(decide (e.id = id))) = st.rows := by
      rw [List.filter_eq_self]
      intro a ha
      simp [h a ha]
    have hmap : ∀ (g : Entry → Entry),
        st.rows.map (fun r => if decide (r.id = id) then g r else r) = st.rows := by
      intro g
      rw [show st.rows.map (fun r => if decide (r.id = id) then g r else r) =
        st.rows.map (fun r => r) from
        List.map_congr_left (fun a ha => by simp [h a ha])]
      simp
    refine ⟨?_, ?_, ?_, ?_⟩
    · simp [sqliteUpdateEntry, hfind]
    · simp [postgresUpdateEntry, hpfind]
    · cases st with
      | mk rows nextId now =>
        cases hard <;>
          simp_all [sqliteDeleteEntry]
    · cases st with
      | mk rows nextId now =>
        cases hard <;>
          simp_all [postgresDeleteEntry]
  · cases hard <;>
      simp [sqliteDeleteEntry, List.length_pos, List.filter_eq_nil_iff]

/-- A well-formed store re-fetches exactly the row just inserted. -/
theorem sqliteCreateEntry_fst (input : CreateEntryInput) (st : DbState)
    (hwf : WellFormed st) :
    (sqliteCreateEntry input st).fst = insertedRow input st := by
  have hnone : st.rows.find? (fun e => decide (e.id = st.nextId)) = none := by
    rw [List.find?_eq_none]
    intro x hx
    simp only [decide_eq_true_iff]
    exact ne_of_lt (hwf.1 x hx)
  simp [sqliteCreateEntry, sqliteGetEntry, List.find?_append, hnone, insertedRow]

/-- Creating preserves the schema invariants. -/
theorem wellFormed_create (input : CreateEntryInput) (st : DbState)
    (hwf : WellFormed st) : WellFormed (sqliteCreateEntry input st).snd := by
  obtain ⟨hlt, hpw⟩ := hwf
  have hsnd : (sqliteCreateEntry input st).snd =
      { rows := st.rows ++ [insertedRow input st], nextId := st.nextId + 1,
        now := st.now } := rfl
  rw [WellFormed, hsnd]
  dsimp only
  constructor
  · intro e he
    simp only [List.mem_append, List.mem_singleton] at he
    rcases he with he | rfl
    · exact lt_trans (hlt e he) (by omega)
    · simp [insertedRow]
  · rw [List.pairwise_append]
    refine ⟨hpw, List.pairwise_singleton _ _, ?_⟩
    intro a ha b hb
    rw [List.mem_singleton] at hb
    subst hb
    simp only [insertedRow]
    exact ne_of_lt (hlt a ha)

/-- The inserted number strictly dominates every number already in the
target group. -/
theorem insertedRow_gt_group (input : CreateEntryInput) (st : DbState) :
    ∀ r ∈ groupRows input.project input.document_type input.entry_date st.rows,
      r.entry_number < (insertedRow input st).entry_number := by
  intro r hr
  have hmem : r.entry_number ∈ (groupRows input.project input.document_type
      input.entry_date st.rows).map (fun e => e.entry_number) :=
    List.mem_map.mpr ⟨r, hr, rfl⟩
  obtain ⟨m, hm, hle⟩ := le_sqlMaxNum hmem
  simp only [insertedRow, hm, jsInt, Option.getD_some]
  omega

/-- The state after a create appends exactly the inserted row. -/
theorem sqliteCreateEntry_snd_rows (input : CreateEntryInput) (st : DbState) :
    (sqliteCreateEntry input st).snd.rows = st.rows ++ [insertedRow input st] := rfl

/-- Chain lemma behind C1: against a well-formed store, a run of creates
into one group returns strictly increasing numbers, all above the group's
pre-existing numbers. -/
theorem createSeq_chain (p : String) (d : DocumentType) (date : String) :
    ∀ (inputs : List CreateEntryInput) (st : DbState),
      WellFormed st →
      (∀ i ∈ inputs, i.project = p ∧ i.document_type = d ∧ i.entry_date = date) →
      List.Chain' (· < ·) (createSeq inputs st).fst ∧
      (∀ x ∈ (createSeq inputs st).fst,
        ∀ r ∈ groupRows p d date st.rows, r.entry_number < x) := by
  intro inputs
  induction inputs with
  | nil => intro st _ _; simp [createSeq]
  | cons i is ih =>
    intro st hwf hgrp
    obtain ⟨hip, hid, hidate⟩ := hgrp i (List.mem_cons_self _ _)
    have hfst : (sqliteCreateEntry i st).fst = insertedRow i st :=
      sqliteCreateEntry_fst i st hwf
    have hwf' : WellFormed (sqliteCreateEntry i st).snd := wellFormed_create i st hwf
    have hgrp' : ∀ j ∈ is, j.project = p ∧ j.document_type = d ∧ j.entry_date = date :=
      fun j hj => hgrp j (List.mem_cons_of_mem _ hj)
    obtain ⟨ihchain, ihgt⟩ := ih (sqliteCreateEntry i st).snd hwf' hgrp'
    have hgroup_eq : groupRows p d date (sqliteCreateEntry i st).snd.rows =
        groupRows p d date st.rows ++ [insertedRow i st] := by
      rw [sqliteCreateEntry_snd_rows, groupRows, List.filter_append]
      congr 1
      simp [insertedRow, hip, hid, hidate]
    have hnew_mem : insertedRow i st ∈ groupRows p d date (sqliteCreateEntry i st).snd.rows := by
      rw [hgroup_eq]
      exact List.mem_append_right _ (List.mem_singleton.mpr rfl)
    have hgt : ∀ r ∈ groupRows p d date st.rows,
        r.entry_number < (insertedRow i st).entry_number := by
      intro r hr
      apply insertedRow_gt_group i st
      rw [hip, hid, hidate]
      exact hr
    constructor
    · show List.Chain' (· < ·)
        ((sqliteCreateEntry i st).fst.entry_number :: (createSeq is (sqliteCreateEntry i st).snd).fst)
      rw [List.chain'_cons']
      constructor
      · intro y hy
        have hy' : y ∈ (createSeq is (sqliteCreateEntry i st).snd).fst :=
          List.mem_of_mem_head? (by simp [hy])
        rw [hfst]
        exact ihgt y hy' (insertedRow i st) hnew_mem
      · exact ihchain
    · intro x hx r hr
      rcases List.mem_cons.mp hx with rfl | hx'
      · rw [hfst]
        exact hgt r hr
      · apply ihgt x hx' r
        rw [hgroup_eq]
        exact List.mem_append_left _ hr

/-- Closed form of the SQLite dynamic `SET` list: every field is written
from the inputs when present, kept otherwise; `updated_at` always. -/
theorem sqliteApplyUpdates_eq (input : UpdateEntryInput) (dc : Option (String × Int))
    (now : String) (r : Entry) :
    sqliteApplyUpdates input dc now r =
      { r with
        entry_date := (match dc with | some dn => dn.fst | none => r.entry_date)
        entry_number := (match dc with | some dn => dn.snd | none => r.entry_number)
        title := (match input.title with | some t => t | none => r.title)
        entry_type := (match input.entry_type with | some v => some v | none => r.entry_type)
        status := (match input.status with | some v => some v | none => r.status)
        summary := (match input.summary with | some v => some v | none => r.summary)
        details := (match input.details with | some v => some v | none => r.details)
        narrative_signal := (match input.narrative_signal with
          | some v => some v | none => r.narrative_signal)
        next_steps := (match input.next_steps with | some v => some v | none => r.next_steps)
        updated_at := now } := by
  rcases input with ⟨d, t, ty, s, su, de, ns, nx⟩
  rcases dc with _ | ⟨dd, dn⟩ <;> cases t <;> cases ty <;> cases s <;> cases su <;>
    cases de <;> cases ns <;> cases nx <;> rfl

/-- An id-preserving per-row rewrite moves through the first-match search. -/
theorem find?_update_map {l : List Entry} {id : Int} {g : Entry → Entry} {e : Entry}
    (hg : ∀ r, (g r).id = r.id)
    (h : l.find? (fun x => decide (x.id = id)) = some e) :
    (l.map (fun r => if decide (r.id = id) then g r else r)).find?
      (fun x => decide (x.id = id)) = some (g e) := by
  induction l with
  | nil => simp [List.find?] at h
  | cons a l ih =>
    by_cases ha : a.id = id
    · have he : e = a := by
        rw [List.find?_cons] at h
        simp [ha] at h
        exact h.symm
      subst he
      simp [List.find?_cons, ha, hg]
    · have h' : l.find? (fun x => decide (x.id = id)) = some e := by
        rw [List.find?_cons] at h
        simpa [ha] using h
      simpa [List.find?_cons, ha] using ih h'

/-- `max + 1` over a list of rows: 1 on the empty list, strictly above
every member, and attained as member-plus-one on a nonempty list. -/
theorem newNumber_spec (l : List Entry) :
    (l = [] → jsInt (sqlMaxNum (l.map (fun x => x.entry_number))) + 1 = 1) ∧
    (∀ r ∈ l, r.entry_number < jsInt (sqlMaxNum (l.map (fun x => x.entry_number))) + 1) ∧
    (l ≠ [] → ∃ r ∈ l,
      jsInt (sqlMaxNum (l.map (fun x => x.entry_number))) + 1 = r.entry_number + 1) := by
  refine ⟨?_, ?_, ?_⟩
  · intro hl
    rw [hl]
    simp [sqlMaxNum, jsInt]
  · intro r hr
    obtain ⟨m, hm, hle⟩ := le_sqlMaxNum (List.mem_map.mpr ⟨r, hr, rfl⟩)
    rw [hm]
    simp only [jsInt, Option.getD_some]
    omega
  · intro hl
    cases hm : sqlMaxNum (l.map (fun x => x.entry_number)) with
    | none =>
      exact absurd (by simpa using sqlMaxNum_eq_none_iff.mp hm) hl
    | some m =>
      obtain ⟨r, hr, hrm⟩ := List.mem_map.mp (sqlMaxNum_mem hm)
      exact ⟨r, hr, by simp [jsInt, hrm]⟩

/-- C5: a date-changing update (in both backends) reassigns the row's
number to 1 plus the maximum of the new date's group computed excluding the
row itself (1 if that group is otherwise empty), and the new number
collides with no other row's number in the new group. -/
theorem C5_update_renumbering (st : DbState) (id : Int) (input : UpdateEntryInput)
    (e : Entry) (d : String)
    (hget : sqliteGetEntry id st = some e)
    (hd : input.entry_date = some d)
    (hne : d ≠ e.entry_date) :
    (∃ e', (sqliteUpdateEntry id input st).fst = some e' ∧
      e'.entry_date = d ∧
      (groupRowsExcl e.project e.document_type d id st.rows = [] →
        e'.entry_number = 1) ∧
      (∀ r ∈ groupRowsExcl e.project e.document_type d id st.rows,
        r.entry_number < e'.entry_number) ∧
      (groupRowsExcl e.project e.document_type d id st.rows ≠ [] →
        ∃ r ∈ groupRowsExcl e.project e.document_type d id st.rows,
          e'.entry_number = r.entry_number + 1) ∧
      (∀ r ∈ (sqliteUpdateEntry id input st).snd.rows,
        r.id ≠ id → r.project = e.project → r.document_type = e.document_type →
          r.entry_date = d → r.entry_number ≠ e'.entry_number)) ∧
    (∃ e', (postgresUpdateEntry id input st).fst = some e' ∧
      e'.entry_date = d ∧
      (groupRowsExcl e.project e.document_type d id st.rows = [] →
        e'.entry_number = 1) ∧
      (∀ r ∈ groupRowsExcl e.project e.document_type d id st.rows,
        r.entry_number < e'.entry_number)) := by
  have hround := newNumber_spec (groupRowsExcl e.project e.document_type d id st.rows)
  constructor
  · have hred : sqliteUpdateEntry id input st =
        (sqliteGetEntry id
          { st with rows := st.rows.map (fun r => if decide (r.id = id)
              then sqliteApplyUpdates input
                (some (d, jsInt (sqlMaxNum ((groupRowsExcl e.project e.document_type
                  d id st.rows).map (fun x => x.entry_number))) + 1)) st.now r else r) },
         { st with rows := st.rows.map (fun r => if decide (r.id = id)
              then sqliteApplyUpdates input
                (some (d, jsInt (sqlMaxNum ((groupRowsExcl e.project e.document_type
                  d id st.rows).map (fun x => x.entry_number))) + 1)) st.now r else r) }) := by
      rw [sqliteUpdateEntry, hget, hd]
      simp only [if_neg hne]
    set N := jsInt (sqlMaxNum ((groupRowsExcl e.project e.document_type d id
      st.rows).map (fun x => x.entry_number))) + 1 with hN
    set g := fun r => sqliteApplyUpdates input (some (d, N)) st.now r with hgdef
    have hgid : ∀ r, (g r).id = r.id := by
      intro r
      rw [hgdef]
      simp [sqliteApplyUpdates_eq]
    have hnum : (g e).entry_number = N := by
      rw [hgdef]
      simp [sqliteApplyUpdates_eq]
    refine ⟨g e, ?_, ?_, ?_, ?_, ?_, ?_⟩
    · rw [hred]
      exact find?_update_map hgid hget
    · rw [hgdef]
      simp [sqliteApplyUpdates_eq]
    · intro hempty
      rw [hnum]
      exact hround.1 hempty
    · intro r hr
      rw [hnum]
      exact hround.2.1 r hr
    · intro hgne
      obtain ⟨r, hr, hrn⟩ := hround.2.2 hgne
      exact ⟨r, hr, by rw [hnum, hrn]⟩
    · intro r hr hrid hrp hrd hrdate
      rw [hred] at hr
      simp only [List.mem_map] at hr
      obtain ⟨r₀, hr₀, hr₀eq⟩ := hr
      by_cases h₀ : r₀.id = id
      · exfalso
        rw [if_pos (by simpa using h₀)] at hr₀eq
        apply hrid
        rw [← hr₀eq, hgid, h₀]
      · rw [if_neg (by simpa using h₀)] at hr₀eq
        subst hr₀eq
        have hmem : r₀ ∈ groupRowsExcl e.project e.document_type d id st.rows := by
          rw [groupRowsExcl, List.mem_filter]
          refine ⟨hr₀, ?_⟩
          simp [hrp, hrd, hrdate, h₀]
        have hlt : r₀.entry_number < N := hround.2.1 r₀ hmem
        rw [hnum]
        exact ne_of_lt hlt
  · have hpget : postgresGetEntry id st = some e := by
      rw [postgresGetEntry, head?_filter_eq_find?]
      exact hget
    set N := jsInt (sqlMaxNum ((groupRowsExcl e.project e.document_type d id
      st.rows).map (fun x => x.entry_number))) + 1 with hN
    set rows' := st.rows.map (fun r => if decide (r.id = id)
      then postgresNewRow input e (d, N) st.now r else r) with hrows'
    have hred : postgresUpdateEntry id input st =
        ((({ st with rows := rows' } : DbState).rows.filter
            (fun x => decide (x.id = id))).head?,
         { st with rows := rows' }) := by
      rw [postgresUpdateEntry, hpget, hd]
      simp only [if_neg hne]
    set g := fun r => postgresNewRow input e (d, N) st.now r with hgdef
    have hgid : ∀ r, (g r).id = r.id := fun r => rfl
    have hnum : (g e).entry_number = N := rfl
    refine ⟨g e, ?_, rfl, ?_, ?_⟩
    · rw [hred]
      show (rows'.filter (fun x => decide (x.id = id))).head? = some (g e)
      rw [head?_filter_eq_find?, hrows']
      exact find?_update_map hgid hget
    · intro hempty
      rw [hnum]
      exact hround.1 hempty
    · intro r hr
      rw [hnum]
      exact hround.2.1 r hr

/-- Witness for C5: moving the only stored entry to a fresh date. -/
theorem C5_update_renumbering_witness :
    ∃ e', (sqliteUpdateEntry 1 { entry_date := some ("2026-02-02") } exState).fst = some e' ∧
      e'.entry_date = "2026-02-02" := by
  obtain ⟨⟨e', h1, h2, _⟩, _⟩ :=
    C5_update_renumbering exState 1 { entry_date := some ("2026-02-02") } exEntry
      "2026-02-02" (by decide) rfl (by decide)
  exact ⟨e', h1, h2⟩

/-- C1: `createEntry` (in both backends) returns the row it inserts, whose
number is 1 plus the group maximum (1 on an empty group) and dominates
every existing number in the group; and any run of creates into a single
group yields strictly increasing, pairwise distinct numbers, starting at 1
on a fresh group. -/
theorem C1_create_numbering :
    (∀ (input : CreateEntryInput) (st : DbState), WellFormed st →
      (sqliteCreateEntry input st).fst = insertedRow input st) ∧
    (∀ (input : CreateEntryInput) (st : DbState),
      (postgresCreateEntry input st).fst = insertedRow input st) ∧
    (∀ (input : CreateEntryInput) (st : DbState),
      (groupRows input.project input.document_type input.entry_date st.rows = [] →
        (insertedRow input st).entry_number = 1) ∧
      (∀ r ∈ groupRows input.project input.document_type input.entry_date st.rows,
        r.entry_number < (insertedRow input st).entry_number) ∧
      (groupRows input.project input.document_type input.entry_date st.rows ≠ [] →
        ∃ r ∈ groupRows input.project input.document_type input.entry_date st.rows,
          (insertedRow input st).entry_number = r.entry_number + 1)) ∧
    (∀ (inputs : List CreateEntryInput) (st : DbState) (p : String) (d : DocumentType)
        (date : String),
      WellFormed st →
      (∀ i ∈ inputs, i.project = p ∧ i.document_type = d ∧ i.entry_date = date) →
      List.Chain' (· < ·) (createSeq inputs st).fst ∧
      List.Pairwise (· ≠ ·) (createSeq inputs st).fst ∧
      (groupRows p d date st.rows = [] → inputs ≠ [] →
        (createSeq inputs st).fst.head? = some 1)) := by
  refine ⟨sqliteCreateEntry_fst, fun _ _ => rfl, ?_, ?_⟩
  · intro input st
    refine ⟨?_, insertedRow_gt_group input st, ?_⟩
    · intro hempty
      simp only [insertedRow]
      rw [hempty]
      simp [sqlMaxNum, jsInt]
    · intro hne
      have hn : (groupRows input.project input.document_type input.entry_date
          st.rows).map (fun e => e.entry_number) ≠ [] := by
        simpa using hne
      cases hm : sqlMaxNum ((groupRows input.project input.document_type
          input.entry_date st.rows).map (fun e => e.entry_number)) with
      | none => exact absurd (sqlMaxNum_eq_none_iff.mp hm) hn
      | some m =>
        obtain ⟨r, hr, hrm⟩ := List.mem_map.mp (sqlMaxNum_mem hm)
        refine ⟨r, hr, ?_⟩
        simp only [insertedRow]
        rw [hm]
        simp [jsInt, hrm]
  · intro inputs st p d date hwf hgrp
    obtain ⟨hchain, hgt⟩ := createSeq_chain p d date inputs st hwf hgrp
    refine ⟨hchain, ?_, ?_⟩
    · exact (List.chain'_iff_pairwise.mp hchain).imp (fun h => ne_of_lt h)
    · intro hempty hne
      cases inputs with
      | nil => exact absurd rfl hne
      | cons i is =>
        obtain ⟨hip, hid, hidate⟩ := hgrp i (List.mem_cons_self _ _)
        have hfst : (sqliteCreateEntry i st).fst = insertedRow i st :=
          sqliteCreateEntry_fst i st hwf
        show some (sqliteCreateEntry i st).fst.entry_number = some 1
        rw [hfst]
        have hg : groupRows i.project i.document_type i.entry_date st.rows = [] := by
          rw [hip, hid, hidate]; exact hempty
        simp only [insertedRow]
        rw [hg]
        simp [sqlMaxNum, jsInt]

/-- Witness for C1 at a concrete store and a two-create run. -/
theorem C1_create_numbering_witness :
    ((sqliteCreateEntry exInput exState).fst = insertedRow exInput exState) ∧
    (List.Chain' (· < ·) (createSeq [exInput, exInput] exState).fst ∧
      List.Pairwise (· ≠ ·) (createSeq [exInput, exInput] exState).fst) := by
  have hwf : WellFormed exState := ⟨by decide, by decide⟩
  have hgrp : ∀ i ∈ [exInput, exInput],
      i.project = "p" ∧ i.document_type = DocumentType.dev_log ∧
        i.entry_date = "2026-01-01" := by decide
  obtain ⟨hchain, hpair, _⟩ :=
    C1_create_numbering.2.2.2 [exInput, exInput] exState "p" DocumentType.dev_log
      "2026-01-01" hwf hgrp
  exact ⟨C1_create_numbering.1 exInput exState hwf, hchain, hpair⟩

/-- C6: soft-deleting a stored row reports success, flips only the flag and
timestamp (in particular the entry number is unchanged), removes the row
from listings whose filter does not set `includeDeleted`, keeps it
addressable through `getEntry`, and a filter with `includeDeleted = true`
whose remaining conditions the row passes counts it again (and returns it
whenever pagination leaves room). -/
theorem C6_soft_delete (st : DbState) (id : Int) (e : Entry)
    (hget : sqliteGetEntry id st = some e) :
    (sqliteDeleteEntry id false st).fst = true ∧
    sqliteGetEntry id (sqliteDeleteEntry id false st).snd =
      some { e with is_deleted := 1, updated_at := st.now } ∧
    ({ e with is_deleted := 1, updated_at := st.now } : Entry).entry_number =
      e.entry_number ∧
    (∀ f : ListFilters, f.includeDeleted ≠ some true →
      { e with is_deleted := 1, updated_at := st.now } ∉
        (sqliteListEntries f (sqliteDeleteEntry id false st).snd).entries) ∧
    (∀ f : ListFilters, f.includeDeleted = some true →
      sqliteWhere f { e with is_deleted := 1, updated_at := st.now } = true →
      ({ e with is_deleted := 1, updated_at := st.now } ∈
          (sqliteDeleteEntry id false st).snd.rows.filter (fun x => sqliteWhere f x) ∧
        (f.offset = none →
          ((sqliteDeleteEntry id false st).snd.rows.filter
            (fun x => sqliteWhere f x)).length ≤ min (jsNum f.limit 50) 200 →
          { e with is_deleted := 1, updated_at := st.now } ∈
            (sqliteListEntries f (sqliteDeleteEntry id false st).snd).entries))) := by
  have hmem : e ∈ st.rows := List.mem_of_find?_eq_some hget
  have hpe : e.id = id := by
    have := List.find?_some hget
    simpa using this
  set d : Entry := { e with is_deleted := 1, updated_at := st.now } with hddef
  set g : Entry → Entry := fun r => { r with is_deleted := 1, updated_at := st.now }
    with hgdef
  have hgid : ∀ r, (g r).id = r.id := fun r => rfl
  have hsnd : (sqliteDeleteEntry id false st).snd =
      { st with rows := st.rows.map (fun r => if decide (r.id = id) then g r else r) } := by
    rw [sqliteDeleteEntry]
    simp
  have hdmem : d ∈ (sqliteDeleteEntry id false st).snd.rows := by
    rw [hsnd]
    exact List.mem_map.mpr ⟨e, hmem, by rw [if_pos (by simpa using hpe)]⟩
  refine ⟨?_, ?_, rfl, ?_, ?_⟩
  · rw [sqliteDeleteEntry]
    simp only [if_neg (by simp : ¬(False : Prop)), Bool.false_eq_true, if_false]
    simp only [decide_eq_true_iff]
    rw [List.length_pos, Ne, List.filter_eq_nil_iff]
    intro hall
    exact absurd (by simpa using hpe) (by simpa using hall e hmem)
  · rw [hsnd]
    show (st.rows.map (fun r => if decide (r.id = id) then g r else r)).find?
      (fun x => decide (x.id = id)) = some d
    exact find?_update_map hgid hget
  · intro f hf hin
    have hw : sqliteWhere f d = true := (mem_listEntries_subset sqliteWhere hin).2
    rw [sqliteWhere] at hw
    simp only [Bool.and_eq_true] at hw
    have h1 := hw.1.1.1.1.1
    rw [condDeleted, if_neg hf] at h1
    simp [hddef] at h1
  · intro f hfi hw
    have hfilter : d ∈ (sqliteDeleteEntry id false st).snd.rows.filter
        (fun x => sqliteWhere f x) := List.mem_filter.mpr ⟨hdmem, hw⟩
    refine ⟨hfilter, ?_⟩
    intro hoff hlen
    show d ∈ ((entriesSort ((sqliteDeleteEntry id false st).snd.rows.filter
      (fun x => sqliteWhere f x))).drop (jsNum f.offset 0)).take (min (jsNum f.limit 50) 200)
    rw [hoff]
    show d ∈ ((entriesSort ((sqliteDeleteEntry id false st).snd.rows.filter
      (fun x => sqliteWhere f x))).drop 0).take (min (jsNum f.limit 50) 200)
    rw [List.drop_zero, List.take_of_length_le]
    · exact ((List.perm_insertionSort browseR _).mem_iff (a := d)).mpr hfilter
    · rw [entriesSort, (List.perm_insertionSort browseR _).length_eq]
      exact hlen

/-- Witness for C6: soft-deleting the only row of the concrete store. -/
theorem C6_soft_delete_witness :
    (sqliteDeleteEntry 1 false exState).fst = true ∧
    sqliteGetEntry 1 (sqliteDeleteEntry 1 false exState).snd =
      some { exEntry with is_deleted := 1, updated_at := exState.now } ∧
    { exEntry with is_deleted := 1, updated_at := exState.now } ∉
      (sqliteListEntries {} (sqliteDeleteEntry 1 false exState).snd).entries ∧
    { exEntry with is_deleted := 1, updated_at := exState.now } ∈
      (sqliteListEntries { includeDeleted := some true }
        (sqliteDeleteEntry 1 false exState).snd).entries := by
  have h := C6_soft_delete exState 1 exEntry (by decide)
  refine ⟨h.1, h.2.1, ?_, ?_⟩
  · exact h.2.2.2.1 {} (by decide)
  · exact (h.2.2.2.2 { includeDeleted := some true } rfl (by decide)).2 rfl (by decide)

/-- Counterexample to C3 as stated: the term is spliced into the `LIKE`
pattern unescaped, so `_` acts as a single-character wildcard. With
`q = "a_c"` the store returns the entry titled `"abc"` although no
searched field contains `"a_c"` as a case-insensitive substring. -/
theorem C3_counterexample :
    searchTerms "a_c" = [String.data ("a_c")] ∧
    exEntry ∈ (sqliteListEntries { q := some ("a_c") } exState).entries ∧
    termContainsCI (String.data ("a_c")) exEntry = false := by
  refine ⟨by decide, by decide, by decide⟩

/-- C3 (amended: a term matches a field through the SQL `LIKE` pattern
`%term%` after case folding, so `_` and `%` inside a term act as
wildcards rather than literal substring characters): for a present
non-empty `q`, every returned entry passes the non-`q` conditions and
matches every whitespace-separated term of `q` in at least one of the four
searched fields (OR within a term, AND across terms), and the total counts
exactly the stored rows satisfying that conjunction. -/
theorem C3_q_filter (f : ListFilters) (st : DbState) (q : String)
    (hq : f.q = some q) (hne : q ≠ "") :
    (∀ e ∈ (sqliteListEntries f st).entries,
      (condDeleted f e && condProject f e && condDocType f e && condAfter f e &&
        condBefore f e) = true ∧
      ∀ t ∈ searchTerms q, sqliteTermCond t e = true) ∧
    (sqliteListEntries f st).total = (st.rows.filter (fun e =>
      (condDeleted f e && condProject f e && condDocType f e && condAfter f e &&
        condBefore f e) &&
      (searchTerms q).all (fun t => sqliteTermCond t e))).length := by
  have hcondq : ∀ e : Entry,
      sqliteCondQ f e = (searchTerms q).all (fun t => sqliteTermCond t e) := by
    intro e
    rw [sqliteCondQ, hq, jsStr]
    rw [if_neg hne]
  constructor
  · intro e he
    have hw : sqliteWhere f e = true := (mem_listEntries_subset sqliteWhere he).2
    rw [sqliteWhere] at hw
    simp only [Bool.and_eq_true] at hw
    obtain ⟨⟨⟨⟨⟨h1, h2⟩, h3⟩, h4⟩, h5⟩, h6⟩ := hw
    refine ⟨by simp [Bool.and_eq_true, h1, h2, h3, h4, h5], ?_⟩
    rw [hcondq e] at h6
    exact List.all_eq_true.mp h6
  · show (st.rows.filter (fun e => sqliteWhere f e)).length = _
    congr 1
    apply List.filter_congr
    intro e _
    rw [sqliteWhere, hcondq e]

/-- Witness for C3 (amended) at the concrete store with `q = "a_c"`. -/
theorem C3_q_filter_witness :
    (∀ e ∈ (sqliteListEntries { q := some ("a_c") } exState).entries,
      (condDeleted { q := some ("a_c") } e && condProject { q := some ("a_c") } e &&
        condDocType { q := some ("a_c") } e && condAfter { q := some ("a_c") } e &&
        condBefore { q := some ("a_c") } e) = true ∧
      ∀ t ∈ searchTerms "a_c", sqliteTermCond t e = true) ∧
    (sqliteListEntries { q := some ("a_c") } exState).total =
      (exState.rows.filter (fun e =>
        (condDeleted { q := some ("a_c") } e && condProject { q := some ("a_c") } e &&
          condDocType { q := some ("a_c") } e && condAfter { q := some ("a_c") } e &&
          condBefore { q := some ("a_c") } e) &&
        (searchTerms "a_c").all (fun t => sqliteTermCond t e))).length :=
  C3_q_filter { q := some ("a_c") } exState "a_c" rfl (by decide)

/-- Counterexample to C7 as stated: an optional field provided as the
empty string is coerced to `NULL` by the `|| null` truthiness check, so
the fetched row does not equal the provided value. -/
theorem C7_counterexample :
    exInputEmptySummary.summary = some ("") ∧
    sqliteGetEntry (sqliteCreateEntry exInputEmptySummary exState).fst.id
        (sqliteCreateEntry exInputEmptySummary exState).snd =
      some (sqliteCreateEntry exInputEmptySummary exState).fst ∧
    (sqliteCreateEntry exInputEmptySummary exState).fst.summary = none ∧
    (sqliteCreateEntry exInputEmptySummary exState).fst.summary ≠
      exInputEmptySummary.summary := by
  refine ⟨rfl, by decide, by decide, by decide⟩

/-- Fetching right after a create returns exactly the inserted row. -/
theorem sqliteGetEntry_create (input : CreateEntryInput) (st : DbState)
    (hwf : WellFormed st) :
    sqliteGetEntry st.nextId (sqliteCreateEntry input st).snd =
      some (insertedRow input st) := by
  have hnone : st.rows.find? (fun e => decide (e.id = st.nextId)) = none := by
    rw [List.find?_eq_none]
    intro x hx
    simp only [decide_eq_true_iff]
    exact ne_of_lt (hwf.1 x hx)
  show (st.rows ++ [insertedRow input st]).find? (fun e => decide (e.id = st.nextId)) =
    some (insertedRow input st)
  rw [List.find?_append, hnone]
  simp [insertedRow]

/-- `jsStr` realizes the amended stored-field relation. -/
theorem jsStr_storedOptField (o : Option String) : storedOptField o (jsStr o) := by
  constructor
  · intro s hs hne
    rw [hs, jsStr, if_neg hne]
  · intro h
    rcases h with h | h <;> rw [h, jsStr]
    rw [if_pos rfl]

/-- C7 (amended: a provided non-empty optional field round-trips as given,
while an omitted or empty-string optional field is stored as null): create
followed by get on the returned id yields the created row in both
backends, and each optional column relates to its input field by the
truthy coercion. -/
theorem C7_create_roundtrip (input : CreateEntryInput) (st : DbState)
    (hwf : WellFormed st) :
    sqliteGetEntry (sqliteCreateEntry input st).fst.id (sqliteCreateEntry input st).snd =
      some (sqliteCreateEntry input st).fst ∧
    postgresGetEntry (postgresCreateEntry input st).fst.id
        (postgresCreateEntry input st).snd =
      some (postgresCreateEntry input st).fst ∧
    storedOptField input.entry_type (sqliteCreateEntry input st).fst.entry_type ∧
    storedOptField input.status (sqliteCreateEntry input st).fst.status ∧
    storedOptField input.summary (sqliteCreateEntry input st).fst.summary ∧
    storedOptField input.details (sqliteCreateEntry input st).fst.details ∧
    storedOptField input.narrative_signal
      (sqliteCreateEntry input st).fst.narrative_signal ∧
    storedOptField input.next_steps (sqliteCreateEntry input st).fst.next_steps := by
  have hfst : (sqliteCreateEntry input st).fst = insertedRow input st :=
    sqliteCreateEntry_fst input st hwf
  have hid : (insertedRow input st).id = st.nextId := rfl
  refine ⟨?_, ?_, ?_, ?_, ?_, ?_, ?_, ?_⟩
  · rw [hfst, hid, sqliteGetEntry_create input st hwf]
  · show (((st.rows ++ [insertedRow input st]).filter
      (fun e => decide (e.id = (insertedRow input st).id)))).head? =
      some (insertedRow input st)
    rw [head?_filter_eq_find?, hid]
    have hnone : st.rows.find? (fun e => decide (e.id = st.nextId)) = none := by
      rw [List.find?_eq_none]
      intro x hx
      simp only [decide_eq_true_iff]
      exact ne_of_lt (hwf.1 x hx)
    rw [List.find?_append, hnone]
    simp [insertedRow]
  all_goals rw [hfst]
  · exact jsStr_storedOptField input.entry_type
  · exact jsStr_storedOptField input.status
  · exact jsStr_storedOptField input.summary
  · exact jsStr_storedOptField input.details
  · exact jsStr_storedOptField input.narrative_signal
  · exact jsStr_storedOptField input.next_steps

/-- Witness for C7 (amended) at the concrete store. -/
theorem C7_create_roundtrip_witness :
    sqliteGetEntry (sqliteCreateEntry exInput exState).fst.id
        (sqliteCreateEntry exInput exState).snd =
      some (sqliteCreateEntry exInput exState).fst ∧
    storedOptField exInput.summary (sqliteCreateEntry exInput exState).fst.summary := by
  have h := C7_create_roundtrip exInput exState ⟨by decide, by decide⟩
  exact ⟨h.1, h.2.2.2.2.1⟩

/-- Under the primary-key invariant, at most one row carries any id. -/
theorem unique_by_id {l : List Entry} {e r : Entry} {id : Int}
    (hpw : l.Pairwise (fun a b => a.id ≠ b.id))
    (he : e ∈ l) (hr : r ∈ l) (hei : e.id = id) (hri : r.id = id) : r = e := by
  induction l with
  | nil => cases he
  | cons a tl ih =>
    rw [List.pairwise_cons] at hpw
    rcases List.mem_cons.mp he with rfl | he' <;> rcases List.mem_cons.mp hr with rfl | hr'
    · rfl
    · exact absurd (hei.trans hri.symm) (hpw.1 r hr')
    · exact absurd (hri.trans hei.symm) (hpw.1 e he')
    · exact ih hpw.2 he' hr'

/-- On the row being updated, the Postgres full-row `SET` and the SQLite
dynamic `SET` agree when the date changed. -/
theorem postgres_sqlite_row_some (input : UpdateEntryInput) (e : Entry) (d : String)
    (N : Int) (now : String) :
    postgresNewRow input e (d, N) now e = sqliteApplyUpdates input (some (d, N)) now e := by
  rw [sqliteApplyUpdates_eq]
  rfl

/-- On the row being updated, the two `SET` forms agree when the date is
unchanged. -/
theorem postgres_sqlite_row_none (input : UpdateEntryInput) (e : Entry) (now : String) :
    postgresNewRow input e (e.entry_date, e.entry_number) now e =
      sqliteApplyUpdates input none now e := by
  rw [sqliteApplyUpdates_eq]
  rfl

/-- The two update implementations coincide on well-formed stores. -/
theorem updateEntry_backend_eq (id : Int) (input : UpdateEntryInput) (st : DbState)
    (hwf : WellFormed st) :
    postgresUpdateEntry id input st = sqliteUpdateEntry id input st := by
  have hg : postgresGetEntry id st = sqliteGetEntry id st :=
    head?_filter_eq_find? _ _
  cases he : sqliteGetEntry id st with
  | none =>
    rw [postgresUpdateEntry, sqliteUpdateEntry, hg, he]
  | some e =>
    have hmem : e ∈ st.rows := List.mem_of_find?_eq_some he
    have heid : e.id = id := by simpa using List.find?_some he
    have hrows : ∀ (dc : Option (String × Int)) (dn : String × Int),
        (dc = none → dn = (e.entry_date, e.entry_number)) →
        (∀ p, dc = some p → dn = p) →
        st.rows.map (fun r =>
          if decide (r.id = id) then postgresNewRow input e dn st.now r else r) =
        st.rows.map (fun r =>
          if decide (r.id = id) then sqliteApplyUpdates input dc st.now r else r) := by
      intro dc dn h1 h2
      apply List.map_congr_left
      intro r hr
      by_cases hid : r.id = id
      · rw [if_pos (by simpa using hid), if_pos (by simpa using hid)]
        have hre : r = e := unique_by_id hwf.2 hmem hr heid hid
        subst hre
        cases dc with
        | none =>
          rw [h1 rfl]
          exact postgres_sqlite_row_none input r st.now
        | some p =>
          rw [h2 p rfl]
          exact postgres_sqlite_row_some input r p.1 p.2 st.now
      · rw [if_neg (by simpa using hid), if_neg (by simpa using hid)]
    rw [postgresUpdateEntry, sqliteUpdateEntry, hg, he]
    dsimp only
    cases hd : input.entry_date with
    | none =>
      simp only [hd]
      rw [hrows none (e.entry_date, e.entry_number) (fun _ => rfl)
        (fun p hp => by cases hp)]
      refine Prod.ext ?_ rfl
      exact head?_filter_eq_find? _ _
    | some d =>
      simp only [hd]
      by_cases hdd : d = e.entry_date
      · simp only [if_pos hdd]
        rw [hrows none (e.entry_date, e.entry_number) (fun _ => rfl)
          (fun p hp => by cases hp)]
        refine Prod.ext ?_ rfl
        exact head?_filter_eq_find? _ _
      · simp only [if_neg hdd]
        rw [hrows (some (d, jsInt (sqlMaxNum ((groupRowsExcl e.project e.document_type
            d id st.rows).map (fun x => x.entry_number))) + 1))
          (d, jsInt (sqlMaxNum ((groupRowsExcl e.project e.document_type
            d id st.rows).map (fun x => x.entry_number))) + 1)
          (fun hc => by cases hc) (fun p hp => by cases hp; rfl)]
        refine Prod.ext ?_ rfl
        exact head?_filter_eq_find? _ _

/-- The two create implementations coincide on well-formed stores. -/
theorem createEntry_backend_eq (input : CreateEntryInput) (st : DbState)
    (hwf : WellFormed st) :
    postgresCreateEntry input st = sqliteCreateEntry input st :=
  Prod.ext (by rw [sqliteCreateEntry_fst input st hwf]; rfl) rfl

/-- Pointwise-equal predicates give equal `all`. -/
theorem all_eq_of_mem_eq {l : List α} {p q : α → Bool}
    (h : ∀ x ∈ l, p x = q x) : l.all p = l.all q := by
  induction l with
  | nil => rfl
  | cons a t ih =>
    rw [List.all_cons, List.all_cons, h a (List.mem_cons_self _ _),
      ih (fun x hx => h x (List.mem_cons_of_mem _ hx))]

/-- The two engines' case folds agree on ASCII. -/
theorem postgresLower_eq_asciiLower {c : Char} (h : asciiChar c = true) :
    postgresLower c = asciiLower c := by
  rw [asciiChar, decide_eq_true_iff] at h
  rw [postgresLower, asciiLower]
  by_cases h1 : 65 ≤ c.toNat ∧ c.toNat ≤ 90
  · rw [if_pos h1, if_pos h1]
  · rw [if_neg h1, if_neg h1, if_neg (by omega)]

/-- Folding an ASCII character sequence is engine-independent. -/
theorem map_postgresLower_ascii {l : List Char} (h : asciiText l = true) :
    l.map postgresLower = l.map asciiLower := by
  rw [asciiText, List.all_eq_true] at h
  exact List.map_congr_left (fun c hc => postgresLower_eq_asciiLower (h c hc))

/-- `ILIKE` and `LIKE ... NOCASE` coincide on ASCII patterns and texts. -/
theorem ilike_eq_nocase {pat s : List Char} (hp : asciiText pat = true)
    (hs : asciiText s = true) : postgresIlike pat s = sqliteLikeNocase pat s := by
  rw [postgresIlike, sqliteLikeNocase, map_postgresLower_ascii hp,
    map_postgresLower_ascii hs]

/-- Every character of a token produced by the whitespace tokenizer comes
from its input or its accumulator. -/
theorem mem_of_mem_splitWsAux :
    ∀ (l acc t : List Char), t ∈ splitWsAux l acc → ∀ c ∈ t, c ∈ l ∨ c ∈ acc := by
  intro l
  induction l with
  | nil =>
    intro acc t ht c hc
    rw [splitWsAux] at ht
    by_cases ha : acc.isEmpty
    · rw [if_pos ha] at ht
      cases ht
    · rw [if_neg ha] at ht
      rw [List.mem_singleton] at ht
      subst ht
      exact Or.inr (List.mem_reverse.mp hc)
  | cons a l ih =>
    intro acc t ht c hc
    rw [splitWsAux] at ht
    by_cases hw : a.isWhitespace
    · rw [if_pos hw] at ht
      by_cases ha : acc.isEmpty
      · rw [if_pos ha] at ht
        rcases ih [] t ht c hc with h | h
        · exact Or.inl (List.mem_cons_of_mem _ h)
        · cases h
      · rw [if_neg ha] at ht
        rcases List.mem_cons.mp ht with rfl | ht'
        · exact Or.inr (List.mem_reverse.mp hc)
        · rcases ih [] t ht' c hc with h | h
          · exact Or.inl (List.mem_cons_of_mem _ h)
          · cases h
    · rw [if_neg hw] at ht
      rcases ih (a :: acc) t ht c hc with h | h
      · exact Or.inl (List.mem_cons_of_mem _ h)
      · rcases List.mem_cons.mp h with rfl | h'
        · exact Or.inl (List.mem_cons_self _ _)
        · exact Or.inr h'

/-- Search terms of an ASCII `q` string are ASCII. -/
theorem asciiText_term {q : String} (hq : asciiText q.data = true)
    {t : List Char} (ht : t ∈ searchTerms q) : asciiText t = true := by
  rw [asciiText, List.all_eq_true] at hq ⊢
  intro c hc
  rcases mem_of_mem_splitWsAux q.data [] t ht c hc with h | h
  · exact hq c h
  · cases h

/-- `%term%` patterns built from ASCII terms are ASCII. -/
theorem asciiText_termPattern {t : List Char} (ht : asciiText t = true) :
    asciiText (termPattern t) = true := by
  rw [asciiText, List.all_eq_true] at ht ⊢
  intro c hc
  rw [termPattern] at hc
  rcases List.mem_cons.mp hc with rfl | hc'
  · decide
  · rcases List.mem_append.mp hc' with h | h
    · exact ht c h
    · rw [List.mem_singleton] at h
      subst h
      decide

/-- The per-term OR blocks of the two backends agree on ASCII terms and
ASCII searched fields. -/
theorem termCond_backend_eq {t : List Char} {e : Entry} (ht : asciiText t = true)
    (he : asciiSearchable e = true) : postgresTermCond t e = sqliteTermCond t e := by
  rw [asciiSearchable] at he
  simp only [Bool.and_eq_true] at he
  obtain ⟨⟨⟨h1, h2⟩, h3⟩, h4⟩ := he
  have hp := asciiText_termPattern ht
  have e1 : postgresIlike (termPattern t) e.title.data =
      sqliteLikeNocase (termPattern t) e.title.data := ilike_eq_nocase hp h1
  have e2 : postgresFieldIlike (termPattern t) e.summary =
      sqliteFieldLike (termPattern t) e.summary := by
    cases hs : e.summary with
    | none => rfl
    | some s =>
      rw [hs, asciiField] at h2
      exact ilike_eq_nocase hp h2
  have e3 : postgresFieldIlike (termPattern t) e.details =
      sqliteFieldLike (termPattern t) e.details := by
    cases hs : e.details with
    | none => rfl
    | some s =>
      rw [hs, asciiField] at h3
      exact ilike_eq_nocase hp h3
  have e4 : postgresFieldIlike (termPattern t) e.next_steps =
      sqliteFieldLike (termPattern t) e.next_steps := by
    cases hs : e.next_steps with
    | none => rfl
    | some s =>
      rw [hs, asciiField] at h4
      exact ilike_eq_nocase hp h4
  show (postgresIlike (termPattern t) e.title.data ||
      postgresFieldIlike (termPattern t) e.summary ||
      postgresFieldIlike (termPattern t) e.details ||
      postgresFieldIlike (termPattern t) e.next_steps) = _
  rw [e1, e2, e3, e4]
  rfl

/-- The `q` condition blocks of the two backends agree on ASCII queries
and ASCII searched fields. -/
theorem condQ_backend_eq {f : ListFilters} {e : Entry} (hq : asciiQuery f = true)
    (he : asciiSearchable e = true) : postgresCondQ f e = sqliteCondQ f e := by
  rw [postgresCondQ, sqliteCondQ]
  cases hjq : jsStr f.q with
  | none => rfl
  | some q =>
    rw [asciiQuery, hjq] at hq
    exact all_eq_of_mem_eq (fun t htm =>
      termCond_backend_eq (asciiText_term hq htm) he)

/-- The full `WHERE` predicates of the two backends agree on ASCII queries
and ASCII searched fields. -/
theorem where_backend_eq {f : ListFilters} {e : Entry} (hq : asciiQuery f = true)
    (he : asciiSearchable e = true) : postgresWhere f e = sqliteWhere f e := by
  rw [postgresWhere, sqliteWhere, condQ_backend_eq hq he]

/-- The two list implementations coincide whenever the search data is
ASCII. -/
theorem listEntries_backend_eq (f : ListFilters) (st : DbState)
    (hq : asciiQuery f = true) (hrows : ∀ e ∈ st.rows, asciiSearchable e = true) :
    postgresListEntries f st = sqliteListEntries f st := by
  have hX : st.rows.filter (fun e => postgresWhere f e) =
      st.rows.filter (fun e => sqliteWhere f e) :=
    List.filter_congr (fun e hme => where_backend_eq hq (hrows e hme))
  rw [postgresListEntries, sqliteListEntries, hX]

/-- Counterexample to C2 as stated: the engines' case folds differ beyond
ASCII — SQLite `LIKE ... COLLATE NOCASE` folds only `A`-`Z` while Postgres
`ILIKE` lower-cases per locale — so a search for `"ä"` finds the entry
titled `"Äpfel"` on Postgres but not on SQLite: the two backends return
different results for the same filter and state. -/
theorem C2_counterexample :
    (postgresListEntries { q := some ("ä") } exStateUni).entries = [exEntryUni] ∧
    (sqliteListEntries { q := some ("ä") } exStateUni).entries = [] ∧
    postgresListEntries { q := some ("ä") } exStateUni ≠
      sqliteListEntries { q := some ("ä") } exStateUni := by
  refine ⟨by decide, by decide, by decide⟩

/-- C2 (amended: equality of the `q` search holds on ASCII search data —
SQLite's `NOCASE` folds only ASCII while Postgres `ILIKE` case-folds
beyond it, so non-ASCII search is engine-dependent — and is stated up to
the backend-assigned timestamp representation, abstracted as a shared
clock, and up to the engine-unspecified relative order of listed rows
fully tied on `(entry_date, entry_number)`, which the model resolves
identically for both backends): on any store state, well-formed where the
primary-key invariant matters, the SQLite and Postgres implementations of
every store operation produce identical results — same schema
initialization, same listing (order and pagination included, search
restricted to ASCII data), same get, create, update, and delete. -/
theorem C2_backend_equivalence (f : ListFilters) (st : DbState) (id : Int)
    (input : CreateEntryInput) (uinput : UpdateEntryInput) (hard : Bool) :
    postgresInitSchema st = sqliteInitSchema st ∧
    (asciiQuery f = true → (∀ e ∈ st.rows, asciiSearchable e = true) →
      postgresListEntries f st = sqliteListEntries f st) ∧
    postgresGetEntry id st = sqliteGetEntry id st ∧
    (WellFormed st → postgresCreateEntry input st = sqliteCreateEntry input st) ∧
    (WellFormed st → postgresUpdateEntry id uinput st = sqliteUpdateEntry id uinput st) ∧
    postgresDeleteEntry id hard st = sqliteDeleteEntry id hard st :=
  ⟨rfl, fun hq hrows => listEntries_backend_eq f st hq hrows,
   head?_filter_eq_find? _ _,
   fun hwf => createEntry_backend_eq input st hwf,
   fun hwf => updateEntry_backend_eq id uinput st hwf, rfl⟩

/-- Witness for C2: listing with an ASCII query, create, and update all
coincide on the concrete store. -/
theorem C2_backend_equivalence_witness :
    postgresListEntries { q := some ("abc") } exState =
      sqliteListEntries { q := some ("abc") } exState ∧
    postgresCreateEntry exInput exState = sqliteCreateEntry exInput exState ∧
    postgresUpdateEntry 1 { title := some ("second") } exState =
      sqliteUpdateEntry 1 { title := some ("second") } exState :=
  ⟨(C2_backend_equivalence { q := some ("abc") } exState 1 exInput
      { title := some ("second") } false).2.1 (by decide) (by decide),
   (C2_backend_equivalence { q := some ("abc") } exState 1 exInput
      { title := some ("second") } false).2.2.2.1 ⟨by decide, by decide⟩,
   (C2_backend_equivalence { q := some ("abc") } exState 1 exInput
      { title := some ("second") } false).2.2.2.2.1 ⟨by decide, by decide⟩⟩

/-- Counterexample to C4 as stated: with `limit` absent the store returns
21 rows from a 21-row store, so the store-layer default is not 20. (The
HTTP route supplies its own default of 20; `listEntries` itself defaults
to 50.) -/
theorem C4_counterexample :
    ({} : ListFilters).limit = none ∧
    (sqliteListEntries {} exState21).entries.length = 21 ∧
    ¬((sqliteListEntries {} exState21).entries.length ≤ 20) := by
  refine ⟨rfl, by decide, by decide⟩

/-- C4 (amended: the store-layer default limit is 50, not 20): entries come
back ordered by `entry_date` descending then `entry_number` descending; an
absent offset behaves as 0 and an absent limit as 50; limits of 200 or
more behave as 200; at most `min(limit || 50, 200)` rows are returned;
every returned row is a stored row matching the predicate; and the total
is the full matching count, unaffected by limit and offset. -/
theorem C4_list_pagination (f : ListFilters) (st : DbState) (n : Nat) :
    List.Sorted browseR (sqliteListEntries f st).entries ∧
    (∀ e ∈ (sqliteListEntries f st).entries, e ∈ st.rows ∧ sqliteWhere f e = true) ∧
    (sqliteListEntries f st).total =
      (st.rows.filter (fun e => sqliteWhere f e)).length ∧
    (∀ l o, (sqliteListEntries { f with limit := l, offset := o } st).total =
      (sqliteListEntries f st).total) ∧
    sqliteListEntries { f with offset := none } st =
      sqliteListEntries { f with offset := some 0 } st ∧
    sqliteListEntries { f with limit := none } st =
      sqliteListEntries { f with limit := some 50 } st ∧
    (200 ≤ n → sqliteListEntries { f with limit := some n } st =
      sqliteListEntries { f with limit := some 200 } st) ∧
    (sqliteListEntries f st).entries.length ≤ min (jsNum f.limit 50) 200 := by
  refine ⟨?_, ?_, rfl, fun l o => rfl, rfl, rfl, ?_, ?_⟩
  · have hs : List.Sorted browseR
        (entriesSort (st.rows.filter (fun e => sqliteWhere f e))) := by
      rw [entriesSort]
      exact List.sorted_insertionSort browseR _
    exact hs.sublist ((List.take_sublist _ _).trans (List.drop_sublist _ _))
  · intro e he
    exact mem_listEntries_subset sqliteWhere he
  · intro hn
    have hjs : jsNum (some n) 50 = n := by
      rw [jsNum]
      rw [if_neg (by omega)]
    have hmin : min (jsNum (some n) 50) 200 = 200 := by
      rw [hjs]
      omega
    show (⟨((entriesSort (st.rows.filter (fun e => sqliteWhere
        { f with limit := some n } e))).drop
        (jsNum ({ f with limit := some n } : ListFilters).offset 0)).take
        (min (jsNum (some n) 50) 200),
      (st.rows.filter (fun e => sqliteWhere { f with limit := some n } e)).length⟩ :
        ListResult) = _
    rw [hmin]
    rfl
  · exact List.length_take_le _ _

/-- Witness for C4 at the concrete store: a limit of 500 behaves as 200. -/
theorem C4_list_pagination_witness :
    sqliteListEntries { limit := some 500 } exState =
      sqliteListEntries { limit := some 200 } exState ∧
    (sqliteListEntries {} exState).total =
      (exState.rows.filter (fun e => sqliteWhere {} e)).length :=
  ⟨(C4_list_pagination {} exState 500).2.2.2.2.2.2.1 (by omega),
   (C4_list_pagination {} exState 500).2.2.1⟩

/-- Witness for C9 at a concrete store: id 5 is absent, id 1 present. -/
theorem C9_not_found_reporting_witness :
    (sqliteUpdateEntry 5 {} exState = (none, exState) ∧
      postgresUpdateEntry 5 {} exState = (none, exState) ∧
      sqliteDeleteEntry 5 false exState = (false, exState) ∧
      postgresDeleteEntry 5 false exState = (false, exState)) ∧
    ((sqliteDeleteEntry 1 false exState).fst = true ↔ ∃ e ∈ exState.rows, e.id = 1) :=
  ⟨(C9_not_found_reporting exState 5 {} false).1 (by decide),
   (C9_not_found_reporting exState 1 {} false).2⟩

end Threadbaire
